import Mathlib

/-!
Shallow embedding of the facerust gallery manager: the load/reload state
machine of `FaceRecognition` (src/face_recognition.rs), the value types
(src/types.rs) and the debounced folder watcher (src/watcher.rs).

Conventions of the embedding:
* OpenCV `Mat` feature vectors are opaque tokens (`Feature := Nat`); the
  SFace scoring call `face_recognizer.match_` is a function parameter.
* `f32`/`f64` scores and coordinates are modelled as exact rationals; the
  Rust `as i32` cast is modelled as truncation toward zero (`truncQ`).
* The shared mutable fields of `FaceRecognition` (each behind its own
  `RwLock`/`Mutex` in the source) are gathered into one explicit record
  `RecState`; every operation is a function on that record.
* The filesystem seen by `load_persons_db` is an explicit tree value `Fs`;
  `none` marks a directory whose `read_dir` fails or an image whose
  `imread` yields an empty matrix.
* `load_persons_db` additionally returns `storeTrace`: the successive
  values of `features_map` produced by each write-lock acquisition
  (the initial map, the cleared map, and the map after each per-person
  insert), i.e. exactly the snapshots a concurrent reader could observe.
-/

namespace Facerust

/-- Load status of the persons database, from src/types.rs. -/
inductive DbLoadStatus where
  | notLoaded
  | loading
  | loaded
deriving DecidableEq, Repr

/-- Opaque token standing for one extracted feature vector (`Mat` row). -/
abbrev Feature := Nat

/-- The `features_map : HashMap<String, Vec<Mat>>`, modelled as an
association list whose insert replaces an existing key. -/
abbrev FeaturesMap := List (String × List Feature)

/-- Error type from src/lib.rs (payloads dropped). -/
inductive FaceRecognitionError where
  | opencv
  | io
  | modelNotFound
  | databaseNotLoaded
  | detectionFailed
  | featureExtractionFailed
  | invalidImage
  | watchError
deriving DecidableEq, Repr

/-- A match result, from src/types.rs; the `f32` score is a rational. -/
structure MatchResult where
  name : String
  score : ℚ
deriving DecidableEq, Repr

/-- Ranked results plus the single best match, from src/types.rs. -/
structure MatchResults where
  results : List MatchResult
  bestMatch : MatchResult
deriving DecidableEq, Repr

/-- The shared mutable state of a `FaceRecognition` value: load status,
feature store, configured db path, watcher baseline time and the
watcher-running flag (src/face_recognition.rs, struct fields). -/
structure RecState where
  dbLoadStatus : DbLoadStatus
  featuresMap : FeaturesMap
  dbPath : Option String
  lastModTime : Nat
  watcherRunning : Bool
deriving DecidableEq, Repr

/-- HashMap insert: replace the entry with the same key, else append. -/
def mapInsert (m : FeaturesMap) (k : String) (v : List Feature) : FeaturesMap :=
  if m.any (fun p => p.1 = k) then
    m.map (fun p => if p.1 = k then (k, v) else p)
  else
    m ++ [(k, v)]

/-- Embedding of `FaceRecognition::set_db_path`: unconditionally resets the
load status to `NotLoaded`, then records the new path. -/
def set_db_path (st : RecState) (path : String) : RecState :=
  { st with dbLoadStatus := DbLoadStatus.notLoaded, dbPath := some path }

/-- One directory entry inside a person directory: its file name, whether
it is itself a directory, and the decode outcome (`none` when `imread`
returns an empty matrix, `some feats` with the feature vectors that
`extract_features` yields for the decoded image). -/
structure ImgFile where
  name : String
  isDir : Bool
  decoded : Option (List Feature)
deriving DecidableEq, Repr

/-- An identity directory: its name and its file listing (`none` when
`read_dir` on the person directory fails). -/
structure PersonDir where
  name : String
  files : Option (List ImgFile)
deriving DecidableEq, Repr

/-- A top-level entry of the target path: an identity directory or a plain
file (plain files are skipped by the load loop). -/
inductive RootEntry where
  | dir (d : PersonDir)
  | file (name : String)
deriving DecidableEq, Repr

/-- The target directory as the load sees it: `none` when `read_dir` on
the target path itself fails (missing or unreadable directory). -/
structure Fs where
  root : Option (List RootEntry)
deriving DecidableEq, Repr

/-- Substring test, modelling Rust `str::contains`. -/
def containsMarker (s marker : String) : Bool :=
  (s.toList.tails).any (fun t => marker.toList.isPrefixOf t)

/-- Per-file step of the inner load loop: subdirectories are skipped,
files whose name contains the `_visualize` marker are skipped, files
that fail to decode are skipped (logged in the source), and every
feature of a decoded image is appended. -/
def fileStep (acc : List Feature) (f : ImgFile) : List Feature :=
  if f.isDir then acc
  else if containsMarker f.name ("_visualize") then acc
  else
    match f.decoded with
    | none => acc
    | some feats => acc ++ feats

/-- Feature vectors contributed by one person directory. -/
def personFeatures (files : List ImgFile) : List Feature :=
  files.foldl fileStep []

/-- Whether a top-level entry is fully readable (a person directory whose
listing succeeds, or a plain file). -/
def entryReadable : RootEntry → Bool
  | RootEntry.dir d => d.files.isSome
  | RootEntry.file _ => true

/-- The per-entry loop of `load_persons_db`: returns the features map at
exit, the error that aborted the loop (if any; an unreadable person
directory propagates as an IO error), and the list of map values after
each per-person insert (each insert takes the write lock). -/
def loadEntries : List RootEntry → FeaturesMap →
    FeaturesMap × Option FaceRecognitionError × List FeaturesMap
  | [], m => (m, none, [])
  | RootEntry.file _ :: rest, m => loadEntries rest m
  | RootEntry.dir d :: rest, m =>
    match d.files with
    | none => (m, some FaceRecognitionError.io, [])
    | some files =>
      let m' := mapInsert m d.name (personFeatures files)
      let r := loadEntries rest m'
      (r.1, r.2.1, m' :: r.2.2)

/-- Decidable equality for `Except`, needed to evaluate load outcomes on
concrete inputs. -/
instance {ε α : Type} [DecidableEq ε] [DecidableEq α] : DecidableEq (Except ε α) :=
  fun a b =>
    match a, b with
    | Except.ok x, Except.ok y =>
      decidable_of_iff (x = y) ⟨fun h => by rw [h], fun h => by injection h⟩
    | Except.error x, Except.error y =>
      decidable_of_iff (x = y) ⟨fun h => by rw [h], fun h => by injection h⟩
    | Except.ok _, Except.error _ => isFalse (fun h => by injection h)
    | Except.error _, Except.ok _ => isFalse (fun h => by injection h)

/-- Result of a call to `load_persons_db`: the returned `Result<()>`, the
post-call state, and the trace of feature-store values a concurrent
reader could observe (initial map first). -/
structure LoadOutcome where
  result : Except FaceRecognitionError Unit
  state : RecState
  storeTrace : List FeaturesMap
deriving DecidableEq, Repr

/-- Body of `load_persons_db` once the fast path is ruled out: set status
to `Loading`, clear the store, then iterate the target directory. `pre`
is the feature map visible before the call. -/
def loadBody (fs : Fs) (pre : FeaturesMap) (st : RecState) : LoadOutcome :=
  match fs.root with
  | none =>
    ⟨Except.error FaceRecognitionError.io,
      { st with dbLoadStatus := DbLoadStatus.loading, featuresMap := [] }, [pre, []]⟩
  | some entries =>
    match loadEntries entries [] with
    | (mf, some e, tr) =>
      ⟨Except.error e,
        { st with dbLoadStatus := DbLoadStatus.loading, featuresMap := mf },
        pre :: [] :: tr⟩
    | (mf, none, tr) =>
      ⟨Except.ok (),
        { st with dbLoadStatus := DbLoadStatus.loaded, featuresMap := mf },
        pre :: [] :: tr⟩

/-- Embedding of `FaceRecognition::load_persons_db`. If the given path is
new, status is reset to `NotLoaded` and the path recorded; else if the
status is `Loaded` and `force` is false the call is a no-op returning
success. Otherwise the body runs. The `visualize` flag only re-runs
extraction and writes an artifact image in the source, an external
effect with no bearing on the state, so it is unused here. -/
def load_persons_db (fs : Fs) (st : RecState) (path : String)
    (force : Bool) (visualize : Bool) : LoadOutcome :=
  if st.dbPath = none ∨ st.dbPath ≠ some path then
    loadBody fs st.featuresMap
      { st with dbLoadStatus := DbLoadStatus.notLoaded, dbPath := some path }
  else if st.dbLoadStatus = DbLoadStatus.loaded ∧ force = false then
    ⟨Except.ok (), st, [st.featuresMap]⟩
  else
    loadBody fs st.featuresMap st

/-- Replay of a list of root entries against a starting map, treating an
unreadable person directory as contributing an empty listing; used to
characterise the intermediate store states of a load. -/
def applyDirs (m : FeaturesMap) : List RootEntry → FeaturesMap
  | [] => m
  | RootEntry.file _ :: rest => applyDirs m rest
  | RootEntry.dir d :: rest =>
    applyDirs (mapInsert m d.name (personFeatures (d.files.getD []))) rest

/-- One candidate step of `find_best_match`: record the match result and
update the running best when the score beats both the current best and
the threshold. -/
def bmStep (threshold : ℚ) (acc : List MatchResult × MatchResult)
    (c : MatchResult) : List MatchResult × MatchResult :=
  (acc.1 ++ [c], if c.score > acc.2.score ∧ c.score > threshold then c else acc.2)

/-- Core of `FaceRecognition::find_best_match`: iterate every stored
(person, feature) pair, scoring against the query feature. The best
match starts as the `Unknown` sentinel with score 0. -/
def find_best_match_core (scoreFn : Feature → Feature → ℚ) (m : FeaturesMap)
    (faceFeature : Feature) (threshold : ℚ) : MatchResults :=
  let init : List MatchResult × MatchResult := ([], ⟨"Unknown", 0⟩)
  let r := m.foldl
    (fun acc p =>
      p.2.foldl (fun acc2 f => bmStep threshold acc2 ⟨p.1, scoreFn faceFeature f⟩) acc)
    init
  ⟨r.1, r.2⟩

/-- Embedding of `FaceRecognition::find_best_match`; the source only
propagates OpenCV scoring errors, which the abstract scoring function
never produces, so the call always succeeds. Note it performs no load
status check. -/
def find_best_match (scoreFn : Feature → Feature → ℚ) (st : RecState)
    (faceFeature : Feature) (threshold : ℚ) : Except FaceRecognitionError MatchResults :=
  Except.ok (find_best_match_core scoreFn st.featuresMap faceFeature threshold)

/-- Embedding of `FaceRecognition::start_watching`. `modTime` abstracts
the result of `get_latest_mod_time` (`none` = IO failure); `watchOk`
abstracts whether the OS watch can be installed. The only
`DatabaseNotLoaded` exit is a missing configured path. -/
def start_watching (st : RecState) (modTime : Option Nat) (watchOk : Bool) :
    Except FaceRecognitionError Unit × RecState :=
  match st.dbPath with
  | none => (Except.error FaceRecognitionError.databaseNotLoaded, st)
  | some _ =>
    if st.watcherRunning then (Except.ok (), st)
    else
      match modTime with
      | none => (Except.error FaceRecognitionError.io, st)
      | some t =>
        let st1 : RecState := { st with lastModTime := t }
        if watchOk then (Except.ok (), { st1 with watcherRunning := true })
        else (Except.error FaceRecognitionError.watchError, st1)

/-- Filesystem event kinds relevant to the watcher (notify crate). -/
inductive EventKind where
  | create
  | modify
  | remove
  | access
  | other
deriving DecidableEq, Repr

/-- A filesystem event with its arrival time in seconds. -/
structure FsEvent where
  time : Nat
  kind : EventKind
deriving DecidableEq, Repr

/-- Event filter of `watch_for_changes`: only `Create` and `Modify`. -/
def qualifies : EventKind → Bool
  | EventKind.create => true
  | EventKind.modify => true
  | _ => false

/-- One iteration of the debounce loop of `watch_for_changes`: fire the
callback iff the event qualifies and strictly more than 2 seconds have
passed since `last_change_time` (`duration_since` clamps a clock that
went backwards to 0, which natural subtraction models exactly); update
`last_change_time` only on firing. -/
def debounceStep (last : Nat) (e : FsEvent) : Bool × Nat :=
  if qualifies e.kind then
    if e.time - last > 2 then (true, e.time) else (false, last)
  else (false, last)

/-- Number of callback invocations the observation loop performs on a
list of events, starting from `last_change_time = last` (initialized to
`SystemTime::now()` when the loop starts). -/
def watchTriggers (last : Nat) : List FsEvent → Nat
  | [] => 0
  | e :: rest =>
    let s := debounceStep last e
    (if s.1 then 1 else 0) + watchTriggers s.2 rest

/-- A frame size in pixels (OpenCV `Size`). -/
structure Size where
  width : Int
  height : Int
deriving DecidableEq, Repr

/-- An integer bounding rectangle (OpenCV `Rect2i`). -/
structure Rect2i where
  x : Int
  y : Int
  width : Int
  height : Int
deriving DecidableEq, Repr

/-- Truncation toward zero, modelling Rust `as i32` on a float value
(saturation at the i32 range is not modelled). On a reduced fraction,
t-division of the numerator by the positive denominator is exactly
truncation toward zero. -/
def truncQ (q : ℚ) : Int :=
  q.num.tdiv (q.den : Int)

/-- A detected face, from src/types.rs: the first four entries of the
detector row (`none` when the matrix is empty), the feature vector, the
size of the original frame, and the size of the frame detection was
actually run on. -/
structure DetectedFace where
  name : String
  faceDetect : Option (ℚ × ℚ × ℚ × ℚ)
  feature : Feature
  originalSize : Size
  detectionSize : Size
deriving DecidableEq, Repr

/-- Embedding of `DetectedFace::bbox_scaled`: an empty detection matrix
yields the default rectangle; otherwise, when the detection size is
positive and differs from the target size, each coordinate is multiplied
by the per-axis ratio target/detection and truncated to `i32`; when the
sizes agree (or the detection size is non-positive) the raw coordinates
are truncated unchanged. -/
def bbox_scaled (f : DetectedFace) (targetSize : Size) : Rect2i :=
  match f.faceDetect with
  | none => ⟨0, 0, 0, 0⟩
  | some (x, y, w, h) =>
    if 0 < f.detectionSize.width ∧ 0 < f.detectionSize.height ∧
        (f.detectionSize.width ≠ targetSize.width ∨
          f.detectionSize.height ≠ targetSize.height) then
      let scaleX : ℚ := (targetSize.width : ℚ) / (f.detectionSize.width : ℚ)
      let scaleY : ℚ := (targetSize.height : ℚ) / (f.detectionSize.height : ℚ)
      ⟨truncQ (x * scaleX), truncQ (y * scaleY), truncQ (w * scaleX), truncQ (h * scaleY)⟩
    else
      ⟨truncQ x, truncQ y, truncQ w, truncQ h⟩

/-- A frame: its pixel dimensions plus the rectangles and name labels
that have been drawn onto it (the only frame mutations the core
performs). -/
structure Frame where
  cols : Int
  rows : Int
  marks : List Rect2i
  labels : List (String × Rect2i)
deriving DecidableEq, Repr

/-- Size accessor, as `Mat::size`. -/
def Frame.size (f : Frame) : Size := ⟨f.cols, f.rows⟩

/-- Emptiness test, as `Mat::empty`. -/
def Frame.isEmpty (f : Frame) : Bool := f.cols == 0 || f.rows == 0

/-- Embedding of `FaceRecognition::resize_frame` (aspect-preserving path):
no-op when `max_size <= 0` or the frame is already within bounds;
otherwise both dimensions are scaled by `max_size / max_dim` and
truncated. Pixel content is not tracked. -/
def resize_frame (maxSize : Int) (keepAspectRatio : Bool) (f : Frame) :
    Except FaceRecognitionError Frame :=
  if maxSize ≤ 0 then Except.ok f
  else if f.isEmpty then Except.error FaceRecognitionError.invalidImage
  else if keepAspectRatio then
    if f.cols > maxSize ∨ f.rows > maxSize then
      let maxDim := max f.cols f.rows
      let scale : ℚ := (maxSize : ℚ) / (maxDim : ℚ)
      Except.ok { f with cols := truncQ ((f.cols : ℚ) * scale),
                         rows := truncQ ((f.rows : ℚ) * scale) }
    else Except.ok f
  else Except.ok { f with cols := maxSize, rows := maxSize }

/-- Embedding of `FaceRecognition::extract_features`. The detector (and
the per-face align/crop/feature steps, whose failures merely skip a
face) is the abstract function `det`, returning the surviving faces of a
frame as (coordinates, feature) pairs. An empty frame is rejected; the
frame is resized before detection; each returned face carries the
original frame size and the resized detection-frame size. -/
def extract_features (det : Frame → List ((ℚ × ℚ × ℚ × ℚ) × Feature))
    (maxSize : Int) (frame : Frame) :
    Except FaceRecognitionError (List DetectedFace) :=
  if frame.isEmpty then Except.error FaceRecognitionError.invalidImage
  else
    match resize_frame maxSize true frame with
    | Except.error e => Except.error e
    | Except.ok resized =>
      Except.ok ((det resized).map
        (fun fc => ⟨"Unknown", some fc.1, fc.2, frame.size, resized.size⟩))

/-- Embedding of `FaceRecognition::visualize_face`: draw a rectangle. -/
def visualize_face (frame : Frame) (bbox : Rect2i) : Frame :=
  { frame with marks := frame.marks ++ [bbox] }

/-- Embedding of `FaceRecognition::annotate_with_name_scaled`: draw the
name label at the face's rectangle rescaled to this frame's size. -/
def annotate_with_name_scaled (frame : Frame) (face : DetectedFace)
    (name : String) : Frame :=
  { frame with labels := frame.labels ++ [(name, bbox_scaled face frame.size)] }

/-- Embedding of `FaceRecognition::run`: detection runs on a copy of the
caller's frame (the source clones it in both arms of the `visualize`
branch); each detected face is matched independently; rectangles and
labels are drawn onto the caller's frame only under `visualize`. Returns
the per-face best matches and the (possibly annotated) frame.
First, the per-face step: match the face independently against the store
and, under `visualize`, draw its rectangle and name label onto the
caller's frame. -/
def runStep (scoreFn : Feature → Feature → ℚ) (st : RecState) (threshold : ℚ)
    (visualize : Bool) (acc : List MatchResult × Frame) (face : DetectedFace) :
    List MatchResult × Frame :=
  let best := (find_best_match_core scoreFn st.featuresMap face.feature
    threshold).bestMatch
  let fr :=
    if visualize then
      annotate_with_name_scaled
        (visualize_face acc.2 (bbox_scaled face acc.2.size)) face best.name
    else acc.2
  (acc.1 ++ [best], fr)

def run (det : Frame → List ((ℚ × ℚ × ℚ × ℚ) × Feature))
    (scoreFn : Feature → Feature → ℚ) (maxSize : Int) (st : RecState)
    (frame : Frame) (threshold : ℚ) (visualize : Bool) :
    Except FaceRecognitionError (List MatchResult × Frame) :=
  let frameForDetection := if visualize then frame else frame
  match extract_features det maxSize frameForDetection with
  | Except.error e => Except.error e
  | Except.ok detectedFaces =>
    Except.ok (detectedFaces.foldl (runStep scoreFn st threshold visualize) ([], frame))

/-- The file listing with every undecodable plain file removed (used to
state that decode failures contribute nothing to a load). -/
def dropUndecodable : List ImgFile → List ImgFile
  | [] => []
  | f :: rest =>
    if f.isDir || f.decoded.isSome then f :: dropUndecodable rest
    else dropUndecodable rest

/-- Apply `dropUndecodable` below one root entry. -/
def entryDrop : RootEntry → RootEntry
  | RootEntry.dir d => RootEntry.dir ⟨d.name, d.files.map dropUndecodable⟩
  | RootEntry.file n => RootEntry.file n

/-- Apply `dropUndecodable` across the whole target directory. -/
def fsDropUndecodable (fs : Fs) : Fs :=
  ⟨fs.root.map (fun es => es.map entryDrop)⟩

/-! Helper lemmas about `loadBody`. -/

/-- When `loadBody` returns an error, the status has been left as
`Loading`; and for a directory-level failure the store is empty. -/
lemma loadBody_error_state (fs : Fs) (pre : FeaturesMap) (st : RecState)
    (e : FaceRecognitionError)
    (h : (loadBody fs pre st).result = Except.error e) :
    (loadBody fs pre st).state.dbLoadStatus = DbLoadStatus.loading ∧
      (fs.root = none → (loadBody fs pre st).state.featuresMap = []) := by
  revert h
  unfold loadBody
  split
  · intro _
    exact ⟨rfl, fun _ => rfl⟩
  · split
    · intro _
      exact ⟨rfl, fun hn => by simp_all⟩
    · intro h
      exact absurd h (by simp)

/-! C1 -/

/-- C1 (amended): when `load_persons_db` returns an error, the load
status is left as `Loading` (it does not revert to its pre-load value),
and a directory-level failure (unreadable target path) additionally
leaves the feature store cleared rather than holding the previously
visible mapping. -/
theorem c1_failed_load_leaves_loading (fs : Fs) (st : RecState) (path : String)
    (force visualize : Bool) (e : FaceRecognitionError)
    (h : (load_persons_db fs st path force visualize).result = Except.error e) :
    (load_persons_db fs st path force visualize).state.dbLoadStatus
        = DbLoadStatus.loading ∧
      (fs.root = none →
        (load_persons_db fs st path force visualize).state.featuresMap = []) := by
  revert h
  unfold load_persons_db
  split
  · intro h
    exact loadBody_error_state _ _ _ _ h
  · split
    · intro h
      simp at h
    · intro h
      exact loadBody_error_state _ _ _ _ h

/-- Witness for C1: a reload of the already-loaded path "db" with
`force` against an unreadable target directory errors with the status
stuck at `Loading` and the store cleared. -/
theorem c1_witness :
    (load_persons_db ⟨none⟩
        ⟨DbLoadStatus.loaded, [("alice", [1])], some ("db"), 0, false⟩
        ("db") true false).state.dbLoadStatus = DbLoadStatus.loading ∧
      ((⟨none⟩ : Fs).root = none →
        (load_persons_db ⟨none⟩
          ⟨DbLoadStatus.loaded, [("alice", [1])], some ("db"), 0, false⟩
          ("db") true false).state.featuresMap = []) :=
  c1_failed_load_leaves_loading ⟨none⟩
    ⟨DbLoadStatus.loaded, [("alice", [1])], some ("db"), 0, false⟩
    ("db") true false FaceRecognitionError.io (by decide)

/-- Counterexample to C1 as stated: starting from a `Loaded` state with a
non-empty store, a forced reload of the same path against an unreadable
target directory returns an error, yet the status is `Loading` (not the
pre-load `Loaded`) and the previously visible mapping is gone. -/
theorem c1_counterexample :
    (load_persons_db ⟨none⟩
        ⟨DbLoadStatus.loaded, [("alice", [1])], some ("db"), 0, false⟩
        ("db") true false).result = Except.error FaceRecognitionError.io ∧
      (load_persons_db ⟨none⟩
        ⟨DbLoadStatus.loaded, [("alice", [1])], some ("db"), 0, false⟩
        ("db") true false).state.dbLoadStatus ≠ DbLoadStatus.loaded ∧
      (load_persons_db ⟨none⟩
        ⟨DbLoadStatus.loaded, [("alice", [1])], some ("db"), 0, false⟩
        ("db") true false).state.dbLoadStatus = DbLoadStatus.loading ∧
      (load_persons_db ⟨none⟩
        ⟨DbLoadStatus.loaded, [("alice", [1])], some ("db"), 0, false⟩
        ("db") true false).state.featuresMap
        ≠ [("alice", [1])] := by
  decide

/-! C5 -/

/-- C5: calling `load_persons_db` with `force = false` when the path
equals the configured path and the status is `Loaded` is a no-op that
returns success: the state (store, status, path) is unchanged and the
store trace shows no write at all, so a repeated call leaves the store
identical. -/
theorem c5_fast_path_noop (fs : Fs) (st : RecState) (path : String)
    (visualize : Bool) (h1 : st.dbPath = some path)
    (h2 : st.dbLoadStatus = DbLoadStatus.loaded) :
    load_persons_db fs st path false visualize
      = ⟨Except.ok (), st, [st.featuresMap]⟩ := by
  unfold load_persons_db
  simp [h1, h2]

/-- Witness for C5: a concrete loaded state is returned untouched. -/
theorem c5_witness :
    (⟨DbLoadStatus.loaded, [("alice", [1])], some ("db"), 0, false⟩ :
        RecState).dbPath = some ("db") ∧
      load_persons_db ⟨none⟩
        ⟨DbLoadStatus.loaded, [("alice", [1])], some ("db"), 0, false⟩
        ("db") false false
        = ⟨Except.ok (),
            ⟨DbLoadStatus.loaded, [("alice", [1])], some ("db"), 0, false⟩,
            [[("alice", [1])]]⟩ :=
  ⟨rfl, c5_fast_path_noop ⟨none⟩
    ⟨DbLoadStatus.loaded, [("alice", [1])], some ("db"), 0, false⟩
    ("db") false rfl rfl⟩

/-! C6 -/

/-- C6 (amended): `set_db_path` always resets the load status to
`NotLoaded`, even when the given path equals the currently configured
path; it records the new path and touches nothing else — in particular
it does not trigger a load and leaves the feature-store mapping
unchanged. -/
theorem c6_set_db_path_resets (st : RecState) (path : String) :
    (set_db_path st path).dbLoadStatus = DbLoadStatus.notLoaded ∧
      (set_db_path st path).dbPath = some path ∧
      (set_db_path st path).featuresMap = st.featuresMap ∧
      (set_db_path st path).lastModTime = st.lastModTime ∧
      (set_db_path st path).watcherRunning = st.watcherRunning := by
  simp [set_db_path]

/-- Counterexample to C6 as stated: setting the path to the value it
already has still resets a `Loaded` status to `NotLoaded`, though the
claim says the status is unchanged when the path is the same. -/
theorem c6_counterexample :
    (⟨DbLoadStatus.loaded, [], some ("db"), 0, false⟩ : RecState).dbPath
        = some ("db") ∧
      (set_db_path ⟨DbLoadStatus.loaded, [], some ("db"), 0, false⟩
        ("db")).dbLoadStatus
        ≠ (⟨DbLoadStatus.loaded, [], some ("db"), 0, false⟩ :
            RecState).dbLoadStatus := by
  decide

/-! C7 -/

/-- C7 (amended): `find_best_match` performs no load-status check and
always succeeds — even before any successful load it returns the plain
scan result over the (then empty) store instead of failing — while
`start_watching` fails with `DatabaseNotLoaded` exactly when no database
path is configured, regardless of load status. -/
theorem c7_database_not_loaded_policy (scoreFn : Feature → Feature → ℚ)
    (st : RecState) (q : Feature) (threshold : ℚ) (modTime : Option Nat)
    (watchOk : Bool) :
    find_best_match scoreFn st q threshold
        = Except.ok (find_best_match_core scoreFn st.featuresMap q threshold) ∧
      ((start_watching st modTime watchOk).1
          = Except.error FaceRecognitionError.databaseNotLoaded
        ↔ st.dbPath = none) := by
  refine ⟨rfl, ?_⟩
  cases hp : st.dbPath with
  | none => simp [start_watching, hp]
  | some p =>
    cases modTime with
    | none =>
      by_cases hw : st.watcherRunning <;> simp [start_watching, hp, hw]
    | some t =>
      by_cases hw : st.watcherRunning <;> cases watchOk <;>
        simp [start_watching, hp, hw]

/-- Counterexample to C7 as stated: with a configured path but no
successful load (status `NotLoaded`, empty store), a query succeeds with
the Unknown sentinel instead of failing with `DatabaseNotLoaded`, and
`start_watching` succeeds as well. -/
theorem c7_counterexample :
    (⟨DbLoadStatus.notLoaded, [], some ("db"), 0, false⟩ :
        RecState).dbLoadStatus = DbLoadStatus.notLoaded ∧
      find_best_match (fun _ _ => (0 : ℚ))
        ⟨DbLoadStatus.notLoaded, [], some ("db"), 0, false⟩ 0 (1 / 2)
        = Except.ok ⟨[], ⟨"Unknown", 0⟩⟩ ∧
      find_best_match (fun _ _ => (0 : ℚ))
        ⟨DbLoadStatus.notLoaded, [], some ("db"), 0, false⟩ 0 (1 / 2)
        ≠ Except.error FaceRecognitionError.databaseNotLoaded ∧
      (start_watching ⟨DbLoadStatus.notLoaded, [], some ("db"), 0, false⟩
          (some 5) true).1 = Except.ok () := by
  decide

/-! C10 -/

/-- The fold of `run` never touches the frame when `visualize` is
false. -/
lemma run_foldl_frame_eq (scoreFn : Feature → Feature → ℚ) (st : RecState)
    (threshold : ℚ) :
    ∀ (faces : List DetectedFace) (p : List MatchResult × Frame),
      (faces.foldl (runStep scoreFn st threshold false) p).2 = p.2 := by
  intro faces
  induction faces with
  | nil => intro p; rfl
  | cons face rest ih =>
    intro p
    simpa [runStep] using ih _

/-- C10: a call to `run` with `visualize = false` leaves the caller's
frame unchanged — rectangles and name labels are drawn only when
`visualize = true`. -/
theorem c10_run_preserves_frame (det : Frame → List ((ℚ × ℚ × ℚ × ℚ) × Feature))
    (scoreFn : Feature → Feature → ℚ) (maxSize : Int) (st : RecState)
    (frame : Frame) (threshold : ℚ) (out : List MatchResult × Frame)
    (h : run det scoreFn maxSize st frame threshold false = Except.ok out) :
    out.2 = frame := by
  unfold run at h
  simp only [ite_self] at h
  cases hef : extract_features det maxSize frame with
  | error e => rw [hef] at h; exact absurd h (by simp)
  | ok faces =>
    rw [hef] at h
    simp only [Except.ok.injEq] at h
    rw [← h]
    exact run_foldl_frame_eq scoreFn st threshold faces ([], frame)

/-- Witness for C10: a concrete frame on which a face is detected and
matched comes back from `run` byte-identical when `visualize` is off. -/
theorem c10_witness :
    run (fun _ => [((1, 2, 3, 4), 7)]) (fun a b => if a = b then (1 : ℚ) else 0)
        600 ⟨DbLoadStatus.loaded, [("alice", [7])], some ("db"), 0, false⟩
        ⟨400, 300, [], []⟩ (mkRat 1 2) false
        = Except.ok ([⟨"alice", 1⟩], ⟨400, 300, [], []⟩) ∧
      (([⟨"alice", 1⟩], (⟨400, 300, [], []⟩ : Frame)) :
          List MatchResult × Frame).2 = ⟨400, 300, [], []⟩ :=
  ⟨by decide,
    c10_run_preserves_frame (fun _ => [((1, 2, 3, 4), 7)])
      (fun a b => if a = b then (1 : ℚ) else 0) 600
      ⟨DbLoadStatus.loaded, [("alice", [7])], some ("db"), 0, false⟩
      ⟨400, 300, [], []⟩ (mkRat 1 2) ([⟨"alice", 1⟩], ⟨400, 300, [], []⟩)
      (by decide)⟩

/-! C8 -/

/-- Undecodable plain files are no-ops for the per-file fold. -/
lemma foldl_fileStep_drop :
    ∀ (files : List ImgFile) (acc : List Feature),
      (dropUndecodable files).foldl fileStep acc = files.foldl fileStep acc := by
  intro files
  induction files with
  | nil => intro acc; rfl
  | cons f rest ih =>
    intro acc
    by_cases hk : (f.isDir || f.decoded.isSome) = true
    · rw [dropUndecodable, if_pos hk, List.foldl_cons, List.foldl_cons]
      exact ih (fileStep acc f)
    · have hd : f.isDir = false := by
        cases hDir : f.isDir
        · rfl
        · rw [hDir] at hk; simp at hk
      have hn : f.decoded = none := by
        cases hDec : f.decoded
        · rfl
        · rw [hd, hDec] at hk; simp at hk
      have hstep : fileStep acc f = acc := by
        simp [fileStep, hd, hn]
      rw [dropUndecodable, if_neg hk, List.foldl_cons, hstep]
      exact ih acc

/-- Undecodable plain files contribute no feature vectors. -/
lemma personFeatures_drop (files : List ImgFile) :
    personFeatures (dropUndecodable files) = personFeatures files :=
  foldl_fileStep_drop files []

/-- Dropping undecodable files changes nothing in the per-entry loop. -/
lemma loadEntries_drop :
    ∀ (es : List RootEntry) (m : FeaturesMap),
      loadEntries (es.map entryDrop) m = loadEntries es m := by
  intro es
  induction es with
  | nil => intro m; rfl
  | cons e rest ih =>
    intro m
    cases e with
    | file n => simpa [loadEntries, entryDrop] using ih m
    | dir d =>
      cases hf : d.files with
      | none => simp [loadEntries, entryDrop, hf]
      | some files =>
        simp only [List.map_cons, entryDrop, hf, Option.map_some', loadEntries,
          personFeatures_drop]
        rw [ih]

/-- When every person directory is readable, the per-entry loop finishes
without error. -/
lemma loadEntries_no_error :
    ∀ (es : List RootEntry) (m : FeaturesMap),
      es.all entryReadable = true → (loadEntries es m).2.1 = none := by
  intro es
  induction es with
  | nil => intro m _; rfl
  | cons e rest ih =>
    intro m h
    rw [List.all_cons, Bool.and_eq_true] at h
    cases e with
    | file n => exact ih m h.2
    | dir d =>
      cases hf : d.files with
      | none => rw [entryReadable, hf] at h; simp at h
      | some files => simpa [loadEntries, hf] using ih _ h.2

/-- `fsDropUndecodable` changes nothing in the load body. -/
lemma loadBody_drop (fs : Fs) (pre : FeaturesMap) (st : RecState) :
    loadBody (fsDropUndecodable fs) pre st = loadBody fs pre st := by
  unfold loadBody fsDropUndecodable
  cases hr : fs.root with
  | none => simp [hr]
  | some entries => simp [hr, loadEntries_drop]

/-- A readable target directory makes the load body succeed and reach
`Loaded`. -/
lemma loadBody_ok (fs : Fs) (pre : FeaturesMap) (st : RecState)
    (entries : List RootEntry) (h1 : fs.root = some entries)
    (h2 : entries.all entryReadable = true) :
    (loadBody fs pre st).result = Except.ok () ∧
      (loadBody fs pre st).state.dbLoadStatus = DbLoadStatus.loaded := by
  unfold loadBody
  have hne := loadEntries_no_error entries [] h2
  rcases hle : loadEntries entries [] with ⟨mf, oe, tr⟩
  rw [hle] at hne
  cases oe with
  | some e2 => simp at hne
  | none => simp [h1, hle]

/-- C8: files that fail to decode contribute nothing — deleting every
undecodable file from the target tree yields the bit-identical load
outcome — and, when the target directory and every person directory are
readable, the load still completes successfully and reaches `Loaded`
despite the undecodable files. -/
theorem c8_decode_failures_skipped (fs : Fs) (st : RecState) (path : String)
    (force visualize : Bool) (entries : List RootEntry)
    (h1 : fs.root = some entries) (h2 : entries.all entryReadable = true) :
    load_persons_db (fsDropUndecodable fs) st path force visualize
        = load_persons_db fs st path force visualize ∧
      (load_persons_db fs st path force visualize).result = Except.ok () ∧
      (load_persons_db fs st path force visualize).state.dbLoadStatus
        = DbLoadStatus.loaded := by
  unfold load_persons_db
  split
  · exact ⟨loadBody_drop _ _ _, loadBody_ok fs _ _ entries h1 h2⟩
  · split
    · next h =>
      exact ⟨rfl, rfl, h.1⟩
    · exact ⟨loadBody_drop _ _ _, loadBody_ok fs _ _ entries h1 h2⟩

/-- Witness for C8: a person directory with one good and one undecodable
image loads to `Loaded` with only the good image's features, exactly as
if the bad file were absent. -/
theorem c8_witness :
    load_persons_db
        (fsDropUndecodable ⟨some [RootEntry.dir ⟨"alice",
          some [⟨"good.jpg", false, some [1]⟩, ⟨"bad.jpg", false, none⟩]⟩]⟩)
        ⟨DbLoadStatus.notLoaded, [], none, 0, false⟩ ("db") false false
        = load_persons_db
          ⟨some [RootEntry.dir ⟨"alice",
            some [⟨"good.jpg", false, some [1]⟩, ⟨"bad.jpg", false, none⟩]⟩]⟩
          ⟨DbLoadStatus.notLoaded, [], none, 0, false⟩ ("db") false false ∧
      (load_persons_db
        ⟨some [RootEntry.dir ⟨"alice",
          some [⟨"good.jpg", false, some [1]⟩, ⟨"bad.jpg", false, none⟩]⟩]⟩
        ⟨DbLoadStatus.notLoaded, [], none, 0, false⟩ ("db") false false).result
        = Except.ok () ∧
      (load_persons_db
        ⟨some [RootEntry.dir ⟨"alice",
          some [⟨"good.jpg", false, some [1]⟩, ⟨"bad.jpg", false, none⟩]⟩]⟩
        ⟨DbLoadStatus.notLoaded, [], none, 0, false⟩ ("db") false false).state.dbLoadStatus
        = DbLoadStatus.loaded :=
  c8_decode_failures_skipped
    ⟨some [RootEntry.dir ⟨"alice",
      some [⟨"good.jpg", false, some [1]⟩, ⟨"bad.jpg", false, none⟩]⟩]⟩
    ⟨DbLoadStatus.notLoaded, [], none, 0, false⟩ ("db") false false
    [RootEntry.dir ⟨"alice",
      some [⟨"good.jpg", false, some [1]⟩, ⟨"bad.jpg", false, none⟩]⟩]
    rfl (by decide)

/-! C2 -/

/-- The last observable store state of the per-entry loop is the map the
loop hands back. -/
lemma loadEntries_lastD :
    ∀ (es : List RootEntry) (m : FeaturesMap),
      ((loadEntries es m).2.2).getLastD m = (loadEntries es m).1 := by
  intro es
  induction es with
  | nil => intro m; rfl
  | cons e rest ih =>
    intro m
    cases e with
    | file n => exact ih m
    | dir d =>
      cases hf : d.files with
      | none => simp [loadEntries, hf]
      | some files =>
        simp only [loadEntries, hf]
        rw [List.getLastD_cons]
        exact ih (mapInsert m d.name (personFeatures files))

/-- Every store state observable during the per-entry loop is the replay
of some prefix of the directory entries. -/
lemma loadEntries_trace_mem :
    ∀ (es : List RootEntry) (m : FeaturesMap) (s : FeaturesMap),
      s ∈ (loadEntries es m).2.2 → ∃ es', es' <+: es ∧ s = applyDirs m es' := by
  intro es
  induction es with
  | nil => intro m s hs; simp [loadEntries] at hs
  | cons e rest ih =>
    intro m s hs
    cases e with
    | file n =>
      obtain ⟨es', hp, hsv⟩ := ih m s (by simpa [loadEntries] using hs)
      obtain ⟨t, ht⟩ := hp
      exact ⟨RootEntry.file n :: es', ⟨t, by rw [List.cons_append, ht]⟩,
        by simpa [applyDirs] using hsv⟩
    | dir d =>
      cases hf : d.files with
      | none => simp [loadEntries, hf] at hs
      | some files =>
        simp only [loadEntries, hf, List.mem_cons] at hs
        rcases hs with hs | hs
        · exact ⟨[RootEntry.dir d], ⟨rest, rfl⟩, by simp [applyDirs, hf, hs]⟩
        · obtain ⟨es', hp, hsv⟩ :=
            ih (mapInsert m d.name (personFeatures files)) s hs
          obtain ⟨t, ht⟩ := hp
          refine ⟨RootEntry.dir d :: es', ⟨t, by rw [List.cons_append, ht]⟩, ?_⟩
          simpa [applyDirs, hf] using hsv

/-- Trace shape of the load body: it starts at the pre-load map, ends at
the final map, and every intermediate state is a prefix replay. -/
lemma loadBody_trace (fs : Fs) (pre : FeaturesMap) (st : RecState) :
    (loadBody fs pre st).storeTrace.head? = some pre ∧
      (loadBody fs pre st).storeTrace.getLastD pre
        = (loadBody fs pre st).state.featuresMap ∧
      ∀ entries, fs.root = some entries →
        ∀ s ∈ (loadBody fs pre st).storeTrace.tail,
          ∃ es', es' <+: entries ∧ s = applyDirs [] es' := by
  unfold loadBody
  cases hr : fs.root with
  | none =>
    refine ⟨rfl, rfl, ?_⟩
    intro entries he
    exact absurd he (by simp)
  | some entries0 =>
    have hlast := loadEntries_lastD entries0 []
    have hmem := loadEntries_trace_mem entries0 []
    rcases hle : loadEntries entries0 [] with ⟨mf, oe, tr⟩
    rw [hle] at hlast
    cases oe with
    | some e =>
      simp only [hle]
      refine ⟨rfl, ?_, ?_⟩
      · rw [List.getLastD_cons, List.getLastD_cons]
        exact hlast
      · intro entries he s hs
        obtain rfl : entries0 = entries := Option.some_injective _ he
        rcases List.mem_cons.mp hs with hs | hs
        · exact ⟨[], ⟨entries0, rfl⟩, by simp [applyDirs, hs]⟩
        · obtain ⟨es', hp, hsv⟩ := hmem s (by rw [hle]; exact hs)
          exact ⟨es', hp, hsv⟩
    | none =>
      simp only [hle]
      refine ⟨rfl, ?_, ?_⟩
      · rw [List.getLastD_cons, List.getLastD_cons]
        exact hlast
      · intro entries he s hs
        obtain rfl : entries0 = entries := Option.some_injective _ he
        rcases List.mem_cons.mp hs with hs | hs
        · exact ⟨[], ⟨entries0, rfl⟩, by simp [applyDirs, hs]⟩
        · obtain ⟨es', hp, hsv⟩ := hmem s (by rw [hle]; exact hs)
          exact ⟨es', hp, hsv⟩

/-- C2 (amended): the rebuilt mapping is not installed atomically. The
load clears the store and then inserts identities one at a time, each
insert under its own brief write lock, so a reader concurrent with a
reload can observe the cleared store or a partially rebuilt mapping.
What does hold: the first observable state is the complete pre-load
mapping, the last equals the complete post-load mapping, and every
intermediate state is the replay of some prefix of the directory
entries over the cleared store. -/
theorem c2_install_not_atomic (fs : Fs) (st : RecState) (path : String)
    (force visualize : Bool) :
    (load_persons_db fs st path force visualize).storeTrace.head?
        = some st.featuresMap ∧
      (load_persons_db fs st path force visualize).storeTrace.getLastD
          st.featuresMap
        = (load_persons_db fs st path force visualize).state.featuresMap ∧
      ∀ entries, fs.root = some entries →
        ∀ s ∈ (load_persons_db fs st path force visualize).storeTrace.tail,
          ∃ es', es' <+: entries ∧ s = applyDirs [] es' := by
  unfold load_persons_db
  split
  · exact loadBody_trace fs st.featuresMap _
  · split
    · refine ⟨rfl, rfl, ?_⟩
      intro entries he s hs
      simp at hs
    · exact loadBody_trace fs st.featuresMap st

/-- Witness for C2: during the concrete two-identity reload, the state
holding only "alice" is observable, and it is the replay of the
one-entry prefix of the directory listing. -/
theorem c2_witness :
    ∃ es', es' <+:
        [RootEntry.dir ⟨"alice", some [⟨"a1.jpg", false, some [1]⟩]⟩,
          RootEntry.dir ⟨"bob", some [⟨"b1.jpg", false, some [2]⟩]⟩] ∧
      [("alice", [1])] = applyDirs [] es' :=
  (c2_install_not_atomic
      ⟨some [RootEntry.dir ⟨"alice", some [⟨"a1.jpg", false, some [1]⟩]⟩,
        RootEntry.dir ⟨"bob", some [⟨"b1.jpg", false, some [2]⟩]⟩]⟩
      ⟨DbLoadStatus.loaded, [("carol", [9])], some ("db"), 0, false⟩
      ("db") true false).2.2
    [RootEntry.dir ⟨"alice", some [⟨"a1.jpg", false, some [1]⟩]⟩,
      RootEntry.dir ⟨"bob", some [⟨"b1.jpg", false, some [2]⟩]⟩]
    rfl [("alice", [1])] (by decide)

/-- Counterexample to C2 as stated: reloading a store that previously
held "carol" from a directory with identities "alice" and "bob", a
concurrent reader can observe the state holding only "alice" — neither
the complete pre-reload mapping nor the complete post-reload mapping. -/
theorem c2_counterexample :
    ∃ s ∈ (load_persons_db
        ⟨some [RootEntry.dir ⟨"alice", some [⟨"a1.jpg", false, some [1]⟩]⟩,
          RootEntry.dir ⟨"bob", some [⟨"b1.jpg", false, some [2]⟩]⟩]⟩
        ⟨DbLoadStatus.loaded, [("carol", [9])], some ("db"), 0, false⟩
        ("db") true false).storeTrace,
      s ≠ (⟨DbLoadStatus.loaded, [("carol", [9])], some ("db"), 0, false⟩ :
          RecState).featuresMap ∧
        s ≠ (load_persons_db
          ⟨some [RootEntry.dir ⟨"alice", some [⟨"a1.jpg", false, some [1]⟩]⟩,
            RootEntry.dir ⟨"bob", some [⟨"b1.jpg", false, some [2]⟩]⟩]⟩
          ⟨DbLoadStatus.loaded, [("carol", [9])], some ("db"), 0, false⟩
          ("db") true false).state.featuresMap := by
  decide

/-! C3 -/

/-- The flat candidate list of `find_best_match`: one scored match result
per stored (person, feature) pair, in iteration order. -/
def candScores (scoreFn : Feature → Feature → ℚ) (q : Feature) :
    FeaturesMap → List MatchResult
  | [] => []
  | p :: rest => p.2.map (fun f => (⟨p.1, scoreFn q f⟩ : MatchResult)) ++
      candScores scoreFn q rest

/-- The nested fold of `find_best_match_core` equals the flat fold of
`bmStep` over the candidate list. -/
lemma core_fold_eq_flat (scoreFn : Feature → Feature → ℚ) (q : Feature)
    (threshold : ℚ) :
    ∀ (m : FeaturesMap) (init : List MatchResult × MatchResult),
      m.foldl
        (fun acc p =>
          p.2.foldl (fun acc2 f => bmStep threshold acc2 ⟨p.1, scoreFn q f⟩) acc)
        init
        = (candScores scoreFn q m).foldl (bmStep threshold) init := by
  intro m
  induction m with
  | nil => intro init; rfl
  | cons p rest ih =>
    intro init
    rw [List.foldl_cons, candScores, List.foldl_append, ih, List.foldl_map]

/-- The candidate fold collects every candidate into the results list. -/
lemma bmFold_results (threshold : ℚ) :
    ∀ (cands : List MatchResult) (acc : List MatchResult × MatchResult),
      (cands.foldl (bmStep threshold) acc).1 = acc.1 ++ cands := by
  intro cands
  induction cands with
  | nil => intro acc; simp
  | cons c rest ih =>
    intro acc
    rw [List.foldl_cons, ih]
    simp [bmStep]

/-- The running best score never decreases. -/
lemma bmFold_mono (threshold : ℚ) :
    ∀ (cands : List MatchResult) (acc : List MatchResult × MatchResult),
      acc.2.score ≤ (cands.foldl (bmStep threshold) acc).2.score := by
  intro cands
  induction cands with
  | nil => intro acc; exact le_refl _
  | cons c rest ih =>
    intro acc
    rw [List.foldl_cons]
    refine le_trans ?_ (ih (bmStep threshold acc c))
    by_cases hc : c.score > acc.2.score ∧ c.score > threshold
    · simp only [bmStep, if_pos hc]
      exact le_of_lt hc.1
    · simp only [bmStep, if_neg hc]
      exact le_refl _

/-- Every candidate that beats the threshold is bounded by the final best
score. -/
lemma bmFold_bound (threshold : ℚ) :
    ∀ (cands : List MatchResult) (acc : List MatchResult × MatchResult),
      ∀ c ∈ cands, threshold < c.score →
        c.score ≤ (cands.foldl (bmStep threshold) acc).2.score := by
  intro cands
  induction cands with
  | nil => intro acc c hc; simp at hc
  | cons c0 rest ih =>
    intro acc c hc hthr
    rcases List.mem_cons.mp hc with hc | hc
    · subst hc
      rw [List.foldl_cons]
      by_cases hcond : c.score > acc.2.score ∧ c.score > threshold
      · refine le_trans ?_ (bmFold_mono threshold rest (bmStep threshold acc c))
        simp only [bmStep, if_pos hcond]
        exact le_refl _
      · have hle : c.score ≤ acc.2.score := by
          by_contra hlt
          exact hcond ⟨lt_of_not_le hlt, hthr⟩
        refine le_trans hle ?_
        refine le_trans ?_ (bmFold_mono threshold rest (bmStep threshold acc c))
        simp only [bmStep, if_neg hcond]
        exact le_refl _
    · rw [List.foldl_cons]
      exact ih (bmStep threshold acc c0) c hc hthr

/-- The final best is either the initial best or a candidate beating the
threshold. -/
lemma bmFold_origin (threshold : ℚ) :
    ∀ (cands : List MatchResult) (acc : List MatchResult × MatchResult),
      (cands.foldl (bmStep threshold) acc).2 = acc.2 ∨
        ((cands.foldl (bmStep threshold) acc).2 ∈ cands ∧
          threshold < (cands.foldl (bmStep threshold) acc).2.score) := by
  intro cands
  induction cands with
  | nil => intro acc; exact Or.inl rfl
  | cons c rest ih =>
    intro acc
    rw [List.foldl_cons]
    by_cases hcond : c.score > acc.2.score ∧ c.score > threshold
    · rcases ih (bmStep threshold acc c) with h | h
      · right
        rw [h]
        simp only [bmStep, if_pos hcond]
        exact ⟨List.mem_cons_self _ _, hcond.2⟩
      · exact Or.inr ⟨List.mem_cons_of_mem _ h.1, h.2⟩
    · rcases ih (bmStep threshold acc c) with h | h
      · left
        rw [h]
        simp only [bmStep, if_neg hcond]
      · exact Or.inr ⟨List.mem_cons_of_mem _ h.1, h.2⟩

/-- C3 (amended): for a non-negative threshold, `find_best_match` always
succeeds and returns as best match the highest-scoring candidate whose
score strictly exceeds the threshold; if no candidate exceeds the
threshold the best match is the Unknown sentinel with score 0; and a
best match other than the sentinel always has a score strictly above the
threshold. (For a negative threshold the source additionally requires a
positive score, because the running best starts at 0 — see the
counterexample.) -/
theorem c3_find_best_match_spec (scoreFn : Feature → Feature → ℚ)
    (st : RecState) (q : Feature) (threshold : ℚ) (h : 0 ≤ threshold) :
    ∃ mr, find_best_match scoreFn st q threshold = Except.ok mr ∧
      ((∃ c ∈ mr.results, threshold < c.score) →
        mr.bestMatch ∈ mr.results ∧ threshold < mr.bestMatch.score ∧
          ∀ c ∈ mr.results, c.score ≤ mr.bestMatch.score) ∧
      ((∀ c ∈ mr.results, c.score ≤ threshold) →
        mr.bestMatch = ⟨"Unknown", 0⟩) ∧
      (mr.bestMatch.name ≠ "Unknown" →
        mr.bestMatch ∈ mr.results ∧ threshold < mr.bestMatch.score) := by
  refine ⟨find_best_match_core scoreFn st.featuresMap q threshold, rfl, ?_, ?_, ?_⟩
  all_goals
    have hres :
        (find_best_match_core scoreFn st.featuresMap q threshold).results
          = candScores scoreFn q st.featuresMap := by
      simp only [find_best_match_core]
      rw [core_fold_eq_flat, bmFold_results]
      exact List.nil_append _
    have hbest :
        (find_best_match_core scoreFn st.featuresMap q threshold).bestMatch
          = ((candScores scoreFn q st.featuresMap).foldl (bmStep threshold)
              ([], ⟨"Unknown", 0⟩)).2 := by
      simp only [find_best_match_core]
      rw [core_fold_eq_flat]
  · rintro ⟨c, hc, hthr⟩
    rw [hres] at hc
    have hbound := bmFold_bound threshold (candScores scoreFn q st.featuresMap)
      ([], ⟨"Unknown", 0⟩) c hc hthr
    have horigin := bmFold_origin threshold (candScores scoreFn q st.featuresMap)
      ([], ⟨"Unknown", 0⟩)
    rw [hres, hbest]
    rcases horigin with h0 | h0
    · exfalso
      rw [h0] at hbound
      exact absurd (lt_of_lt_of_le hthr hbound) (not_lt.mpr h)
    · refine ⟨h0.1, h0.2, ?_⟩
      intro c2 hc2
      by_cases hthr2 : threshold < c2.score
      · exact bmFold_bound threshold _ _ c2 hc2 hthr2
      · exact le_trans (not_lt.mp hthr2) (le_of_lt h0.2)
  · intro hall
    rw [hres] at hall
    rw [hbest]
    rcases bmFold_origin threshold (candScores scoreFn q st.featuresMap)
        ([], ⟨"Unknown", 0⟩) with h0 | h0
    · exact h0
    · exact absurd h0.2 (not_lt.mpr (hall _ h0.1))
  · intro hname
    rw [hbest] at hname ⊢
    rw [hres]
    rcases bmFold_origin threshold (candScores scoreFn q st.featuresMap)
        ([], ⟨"Unknown", 0⟩) with h0 | h0
    · exact absurd (congrArg MatchResult.name h0) hname
    · exact h0

/-- Witness for C3: with an identity whose stored feature matches the
query exactly and threshold one half, the best match is that identity at
the maximal score. -/
theorem c3_witness :
    ∃ mr, find_best_match (fun a b => if a = b then (1 : ℚ) else 0)
        ⟨DbLoadStatus.loaded, [("alice", [5])], some ("db"), 0, false⟩ 5
        (mkRat 1 2) = Except.ok mr ∧
      ((∃ c ∈ mr.results, mkRat 1 2 < c.score) →
        mr.bestMatch ∈ mr.results ∧ mkRat 1 2 < mr.bestMatch.score ∧
          ∀ c ∈ mr.results, c.score ≤ mr.bestMatch.score) ∧
      ((∀ c ∈ mr.results, c.score ≤ mkRat 1 2) →
        mr.bestMatch = ⟨"Unknown", 0⟩) ∧
      (mr.bestMatch.name ≠ "Unknown" →
        mr.bestMatch ∈ mr.results ∧ mkRat 1 2 < mr.bestMatch.score) :=
  c3_find_best_match_spec (fun a b => if a = b then (1 : ℚ) else 0)
    ⟨DbLoadStatus.loaded, [("alice", [5])], some ("db"), 0, false⟩ 5
    (mkRat 1 2) (by decide)

/-- Counterexample to C3 as stated: with threshold -1 and a single
candidate scoring -1/2, the candidate strictly exceeds the threshold and
is the highest-scoring one, yet the source returns the Unknown sentinel,
because the running best starts at score 0 and a candidate must also
beat that. -/
theorem c3_counterexample :
    find_best_match (fun _ _ => mkRat (-1) 2)
        ⟨DbLoadStatus.loaded, [("alice", [0])], some ("db"), 0, false⟩ 0 (-1)
        = Except.ok ⟨[⟨"alice", mkRat (-1) 2⟩], ⟨"Unknown", 0⟩⟩ ∧
      (-1 : ℚ) < mkRat (-1) 2 ∧ ("Unknown" : String) ≠ "alice" := by
  decide

/-! C4 -/

/-- One step of the observation loop, unfolded. -/
lemma watchTriggers_cons (last : Nat) (e : FsEvent) (rest : List FsEvent) :
    watchTriggers last (e :: rest)
      = (if (debounceStep last e).1 then 1 else 0)
        + watchTriggers (debounceStep last e).2 rest := rfl

/-- A suppressed or non-qualifying event leaves the debounce state
unchanged. -/
lemma debounceStep_still (last : Nat) (e : FsEvent)
    (h : ¬ (qualifies e.kind = true ∧ e.time - last > 2)) :
    debounceStep last e = (false, last) := by
  unfold debounceStep
  by_cases h1 : qualifies e.kind = true
  · have h2 : ¬ e.time - last > 2 := fun hc => h ⟨h1, hc⟩
    simp [h1, h2]
  · simp [h1]

/-- A qualifying event past the window fires and resets the state. -/
lemma debounceStep_fire (last : Nat) (e : FsEvent)
    (h1 : qualifies e.kind = true) (h2 : e.time - last > 2) :
    debounceStep last e = (true, e.time) := by
  simp [debounceStep, h1, h2]

/-- Once `last_change_time` has reached the window containing a burst,
no event of the burst fires. -/
lemma watchTriggers_zero_of_window (a : Nat) :
    ∀ (evs : List FsEvent) (last : Nat),
      (∀ e ∈ evs, e.time ≤ a + 2) → a ≤ last → watchTriggers last evs = 0 := by
  intro evs
  induction evs with
  | nil => intro last _ _; rfl
  | cons e rest ih =>
    intro last h hal
    have he := h e (List.mem_cons_self _ _)
    have hrest : ∀ e2 ∈ rest, e2.time ≤ a + 2 :=
      fun e2 he2 => h e2 (List.mem_cons_of_mem _ he2)
    rw [watchTriggers_cons,
      debounceStep_still last e (fun hc => absurd hc.2 (by omega))]
    simpa using ih last hrest hal

/-- C4 (amended): the callback fires on an event iff the event kind is
Create or Modify and more than 2 seconds have elapsed since
`last_trigger_time` — which is initialized to the time the observation
loop starts, not to a point in the past — and firing updates
`last_trigger_time`. Consequently, qualifying events confined to one
debounce window produce at most one invocation; exactly one when at
least one of them arrives more than 2 seconds after the initial
`last_trigger_time`; and qualifying events pairwise spaced more than the
window apart, the first more than the window after the loop start, each
produce one. -/
theorem c4_debounce :
    (∀ (last : Nat) (e : FsEvent) (rest : List FsEvent),
      watchTriggers last (e :: rest)
        = if qualifies e.kind = true ∧ e.time - last > 2
            then 1 + watchTriggers e.time rest
            else watchTriggers last rest) ∧
    (∀ (t0 a : Nat) (evs : List FsEvent),
      (∀ e ∈ evs, a ≤ e.time ∧ e.time ≤ a + 2) → watchTriggers t0 evs ≤ 1) ∧
    (∀ (t0 a : Nat) (evs : List FsEvent),
      (∀ e ∈ evs, a ≤ e.time ∧ e.time ≤ a + 2) →
      (∀ e ∈ evs, qualifies e.kind = true) →
      (∃ e ∈ evs, t0 + 2 < e.time) → watchTriggers t0 evs = 1) ∧
    (∀ (evs : List FsEvent) (t0 : Nat),
      (∀ e ∈ evs, qualifies e.kind = true) →
      List.Chain (fun a b => a + 2 < b) t0 (evs.map FsEvent.time) →
      watchTriggers t0 evs = evs.length) := by
  refine ⟨?_, ?_, ?_, ?_⟩
  · intro last e rest
    by_cases hc : qualifies e.kind = true ∧ e.time - last > 2
    · rw [watchTriggers_cons, debounceStep_fire last e hc.1 hc.2, if_pos hc]
      rfl
    · rw [watchTriggers_cons, debounceStep_still last e hc, if_neg hc]
      simp
  · intro t0 a evs
    induction evs generalizing t0 with
    | nil => intro _; exact Nat.zero_le 1
    | cons e rest ih =>
      intro h
      have he := h e (List.mem_cons_self _ _)
      have hrest : ∀ e2 ∈ rest, a ≤ e2.time ∧ e2.time ≤ a + 2 :=
        fun e2 he2 => h e2 (List.mem_cons_of_mem _ he2)
      by_cases hc : qualifies e.kind = true ∧ e.time - t0 > 2
      · rw [watchTriggers_cons, debounceStep_fire t0 e hc.1 hc.2]
        have hz := watchTriggers_zero_of_window a rest e.time
          (fun e2 he2 => (hrest e2 he2).2) he.1
        simp [hz]
      · rw [watchTriggers_cons, debounceStep_still t0 e hc]
        simpa using ih t0 hrest
  · intro t0 a evs
    induction evs with
    | nil => rintro _ _ ⟨e, he, _⟩; simp at he
    | cons e rest ih =>
      rintro h hq ⟨ew, hew, hwt⟩
      have he := h e (List.mem_cons_self _ _)
      have hqe := hq e (List.mem_cons_self _ _)
      have hrest : ∀ e2 ∈ rest, a ≤ e2.time ∧ e2.time ≤ a + 2 :=
        fun e2 he2 => h e2 (List.mem_cons_of_mem _ he2)
      have hqrest : ∀ e2 ∈ rest, qualifies e2.kind = true :=
        fun e2 he2 => hq e2 (List.mem_cons_of_mem _ he2)
      by_cases hc : qualifies e.kind = true ∧ e.time - t0 > 2
      · rw [watchTriggers_cons, debounceStep_fire t0 e hc.1 hc.2]
        have hz := watchTriggers_zero_of_window a rest e.time
          (fun e2 he2 => (hrest e2 he2).2) he.1
        simp [hz]
      · rw [watchTriggers_cons, debounceStep_still t0 e hc]
        have hlate : e.time ≤ t0 + 2 := by
          rcases not_and_or.mp hc with h1 | h2
          · exact absurd hqe h1
          · omega
        rcases List.mem_cons.mp hew with hew | hew
        · subst hew; omega
        · simpa using ih hrest hqrest ⟨ew, hew, hwt⟩
  · intro evs
    induction evs with
    | nil => intro t0 _ _; rfl
    | cons e rest ih =>
      intro t0 hq hchain
      rw [List.map_cons, List.chain_cons] at hchain
      obtain ⟨hfirst, hchain2⟩ := hchain
      have hfirst2 : t0 + 2 < e.time := hfirst
      have hqe := hq e (List.mem_cons_self _ _)
      have hqrest : ∀ e2 ∈ rest, qualifies e2.kind = true :=
        fun e2 he2 => hq e2 (List.mem_cons_of_mem _ he2)
      rw [watchTriggers_cons,
        debounceStep_fire t0 e hqe (by omega : e.time - t0 > 2)]
      have hlen := ih e.time hqrest hchain2
      simp [hlen]
      omega

/-- Witness for C4: two qualifying events at seconds 3 and 4 after a loop
start at second 0 fire exactly once; two qualifying events at seconds 3
and 6 each fire. -/
theorem c4_witness :
    watchTriggers 0 [⟨3, EventKind.create⟩, ⟨4, EventKind.modify⟩] ≤ 1 ∧
      watchTriggers 0 [⟨3, EventKind.create⟩, ⟨4, EventKind.modify⟩] = 1 ∧
      watchTriggers 0 [⟨3, EventKind.create⟩, ⟨6, EventKind.modify⟩]
        = ([⟨3, EventKind.create⟩, ⟨6, EventKind.modify⟩] :
            List FsEvent).length :=
  ⟨c4_debounce.2.1 0 3 [⟨3, EventKind.create⟩, ⟨4, EventKind.modify⟩]
      (by decide),
    c4_debounce.2.2.1 0 3 [⟨3, EventKind.create⟩, ⟨4, EventKind.modify⟩]
      (by decide) (by decide) ⟨⟨3, EventKind.create⟩, by decide, by decide⟩,
    c4_debounce.2.2.2 [⟨3, EventKind.create⟩, ⟨6, EventKind.modify⟩] 0
      (by decide)
      (List.Chain.cons (by norm_num) (List.Chain.cons (by norm_num)
        List.Chain.nil))⟩

/-- Counterexample to C4 as stated: two qualifying Create events at
seconds 1 and 2 — within a single debounce window — arriving right after
the loop starts at second 0 produce zero callback invocations, not
exactly one, because `last_trigger_time` starts at the loop start time. -/
theorem c4_counterexample :
    watchTriggers 0 [⟨1, EventKind.create⟩, ⟨2, EventKind.create⟩] = 0 ∧
      watchTriggers 0 [⟨1, EventKind.create⟩, ⟨2, EventKind.create⟩] ≠ 1 ∧
      (∀ e ∈ [FsEvent.mk 1 EventKind.create, FsEvent.mk 2 EventKind.create],
        qualifies e.kind = true ∧ 1 ≤ e.time ∧ e.time ≤ 1 + 2) := by
  decide

/-! C9 -/

/-- Truncation toward zero is the identity on integers. -/
lemma truncQ_intCast (n : Int) : truncQ ((n : ℚ)) = n := by
  simp [truncQ]

/-- C9: every face returned by `extract_features` carries the original
frame size and the size of the (possibly resized) frame detection was
run on; and `bbox_scaled` rescales by the ratio of target size to
detection size, so a detection whose stored coordinates are an
integer-coordinate original-frame region scaled down to the detection
frame is reproduced exactly when rescaled back to the original frame. -/
theorem c9_bbox_roundtrip :
    (∀ (det : Frame → List ((ℚ × ℚ × ℚ × ℚ) × Feature)) (maxSize : Int)
        (frame : Frame) (faces : List DetectedFace),
      extract_features det maxSize frame = Except.ok faces →
        ∀ fc ∈ faces, fc.originalSize = frame.size ∧
          ∀ rs, resize_frame maxSize true frame = Except.ok rs →
            fc.detectionSize = rs.size) ∧
    (∀ (nm : String) (ft : Feature) (osz dsz : Size) (x0 y0 w0 h0 : Int),
      0 < dsz.width → 0 < dsz.height → 0 < osz.width → 0 < osz.height →
      bbox_scaled
          ⟨nm, some ((x0 : ℚ) * (dsz.width : ℚ) / (osz.width : ℚ),
            (y0 : ℚ) * (dsz.height : ℚ) / (osz.height : ℚ),
            (w0 : ℚ) * (dsz.width : ℚ) / (osz.width : ℚ),
            (h0 : ℚ) * (dsz.height : ℚ) / (osz.height : ℚ)), ft, osz, dsz⟩
          osz
        = ⟨x0, y0, w0, h0⟩) := by
  constructor
  · intro det maxSize frame faces h fc hfc
    unfold extract_features at h
    by_cases hemp : frame.isEmpty = true
    · rw [if_pos hemp] at h
      exact absurd h (by simp)
    · rw [if_neg hemp] at h
      cases hrs : resize_frame maxSize true frame with
      | error e => rw [hrs] at h; exact absurd h (by simp)
      | ok resized =>
        rw [hrs] at h
        simp only [Except.ok.injEq] at h
        rw [← h] at hfc
        obtain ⟨p, hpmem, hp⟩ := List.mem_map.mp hfc
        constructor
        · rw [← hp]
        · intro rs hrs2
          have hrseq : resized = rs := Except.ok.inj hrs2
          rw [← hp, ← hrseq]
  · intro nm ft osz dsz x0 y0 w0 h0 hdw hdh how hoh
    have hdwQ : ((dsz.width : ℚ)) ≠ 0 := by
      exact_mod_cast ne_of_gt hdw
    have hdhQ : ((dsz.height : ℚ)) ≠ 0 := by
      exact_mod_cast ne_of_gt hdh
    have howQ : ((osz.width : ℚ)) ≠ 0 := by
      exact_mod_cast ne_of_gt how
    have hohQ : ((osz.height : ℚ)) ≠ 0 := by
      exact_mod_cast ne_of_gt hoh
    have hx : ((x0 : ℚ) * (dsz.width : ℚ) / (osz.width : ℚ))
        * ((osz.width : ℚ) / (dsz.width : ℚ)) = ((x0 : ℚ)) := by
      field_simp
    have hy : ((y0 : ℚ) * (dsz.height : ℚ) / (osz.height : ℚ))
        * ((osz.height : ℚ) / (dsz.height : ℚ)) = ((y0 : ℚ)) := by
      field_simp
    have hw : ((w0 : ℚ) * (dsz.width : ℚ) / (osz.width : ℚ))
        * ((osz.width : ℚ) / (dsz.width : ℚ)) = ((w0 : ℚ)) := by
      field_simp
    have hh : ((h0 : ℚ) * (dsz.height : ℚ) / (osz.height : ℚ))
        * ((osz.height : ℚ) / (dsz.height : ℚ)) = ((h0 : ℚ)) := by
      field_simp
    by_cases hne : dsz.width ≠ osz.width ∨ dsz.height ≠ osz.height
    · simp only [bbox_scaled, if_pos (And.intro hdw (And.intro hdh hne))]
      rw [hx, hy, hw, hh, truncQ_intCast, truncQ_intCast, truncQ_intCast,
        truncQ_intCast]
    · push_neg at hne
      obtain ⟨hweq, hheq⟩ := hne
      have hcond : ¬ (0 < dsz.width ∧ 0 < dsz.height ∧
          (dsz.width ≠ osz.width ∨ dsz.height ≠ osz.height)) := by
        rintro ⟨-, -, hbad | hbad⟩
        · exact hbad hweq
        · exact hbad hheq
      simp only [bbox_scaled, if_neg hcond]
      rw [hweq, hheq]
      have hx2 : ((x0 : ℚ) * (osz.width : ℚ) / (osz.width : ℚ)) = ((x0 : ℚ)) :=
        mul_div_cancel_right₀ _ howQ
      have hy2 : ((y0 : ℚ) * (osz.height : ℚ) / (osz.height : ℚ)) = ((y0 : ℚ)) :=
        mul_div_cancel_right₀ _ hohQ
      have hw2 : ((w0 : ℚ) * (osz.width : ℚ) / (osz.width : ℚ)) = ((w0 : ℚ)) :=
        mul_div_cancel_right₀ _ howQ
      have hh2 : ((h0 : ℚ) * (osz.height : ℚ) / (osz.height : ℚ)) = ((h0 : ℚ)) :=
        mul_div_cancel_right₀ _ hohQ
      rw [hx2, hy2, hw2, hh2, truncQ_intCast, truncQ_intCast, truncQ_intCast,
        truncQ_intCast]

/-- Witness for C9: a face detected on an unresized 400x300 frame carries
that frame's size in both fields, and a detection stored at half scale
(300x200 detection frame for a 600x400 original) rescales back to the
exact original-frame rectangle (10, 20, 30, 40). -/
theorem c9_witness :
    ((⟨"Unknown", some (1, 2, 3, 4), 7, ⟨400, 300⟩, ⟨400, 300⟩⟩ :
        DetectedFace).originalSize = (⟨400, 300, [], []⟩ : Frame).size ∧
      (⟨"Unknown", some (1, 2, 3, 4), 7, ⟨400, 300⟩, ⟨400, 300⟩⟩ :
        DetectedFace).detectionSize = (⟨400, 300, [], []⟩ : Frame).size) ∧
    bbox_scaled
        ⟨"x", some (((10 : Int) : ℚ) * (((⟨300, 200⟩ : Size).width : ℚ))
            / (((⟨600, 400⟩ : Size).width : ℚ)),
          ((20 : Int) : ℚ) * (((⟨300, 200⟩ : Size).height : ℚ))
            / (((⟨600, 400⟩ : Size).height : ℚ)),
          ((30 : Int) : ℚ) * (((⟨300, 200⟩ : Size).width : ℚ))
            / (((⟨600, 400⟩ : Size).width : ℚ)),
          ((40 : Int) : ℚ) * (((⟨300, 200⟩ : Size).height : ℚ))
            / (((⟨600, 400⟩ : Size).height : ℚ))), 0, ⟨600, 400⟩, ⟨300, 200⟩⟩
        ⟨600, 400⟩
      = ⟨10, 20, 30, 40⟩ := by
  have hA := c9_bbox_roundtrip.1 (fun _ => [((1, 2, 3, 4), 7)]) 600
    ⟨400, 300, [], []⟩
    [⟨"Unknown", some (1, 2, 3, 4), 7, ⟨400, 300⟩, ⟨400, 300⟩⟩] (by decide)
    ⟨"Unknown", some (1, 2, 3, 4), 7, ⟨400, 300⟩, ⟨400, 300⟩⟩ (by decide)
  exact ⟨⟨hA.1, hA.2 ⟨400, 300, [], []⟩ (by decide)⟩,
    c9_bbox_roundtrip.2 ("x") 0 ⟨600, 400⟩ ⟨300, 200⟩ 10 20 30 40 (by decide)
      (by decide) (by decide) (by decide)⟩

end Facerust
